import Mathlib

/-!
Verification of the outbound request-governance core of `inat.label.py`.

Shallow embedding of:
- `_rate_limit_wait` (sliding-window rate limiter with burst allowance),
- `fetch_api_data` (retrying fetcher with backoff/jitter/clamping),
- `get_taxon_details` (cached taxon resolver) and the interleaving
  behaviour of concurrent callers.

Time is modelled with `ℚ` (the Python code uses floats only as clock
readings and second counts; every constant involved is rational).
Randomness (`random.uniform(0.8, 1.2)`) is modelled as an explicit
jitter stream supplied as input.
-/

namespace INat

/-! ### Rate limiter: `_rate_limit_wait` (src/inat.label.py lines 136-195)

Module-level state: `_request_times` (a deque of admission timestamps,
oldest first) and `_next_allowed_time`.  Configuration: `RATE_LIMIT_RPM`
and `_SMOOTH_THRESHOLD` (default `max 1 (RATE_LIMIT_RPM / 4)`).
`_MIN_INTERVAL = 60 / RATE_LIMIT_RPM` when the rpm is positive. -/

structure RateCfg where
  rpm : Int
  threshold : Nat
  deriving Repr, DecidableEq

/-- The default smoothing threshold: `max(1, RATE_LIMIT_RPM // 4)`
(line 127). -/
def defaultThreshold (rpm : Int) : Nat :=
  max 1 (rpm / 4).toNat

structure RateState where
  times : List ℚ
  nextAllowed : ℚ
  deriving Repr, DecidableEq

/-- The initial module-level state: empty deque, `_next_allowed_time = 0.0`. -/
def rateInit : RateState := ⟨[], 0⟩

/-- The pruning loop (lines 154-155):
`while _request_times and now - _request_times[0] > window: popleft()`. -/
def pruneOld (now : ℚ) : List ℚ → List ℚ
  | [] => []
  | t :: ts => if now - t > 60 then pruneOld now ts else t :: ts

/-- One call to `_rate_limit_wait` observed at monotonic-clock reading
`now`.  Returns the new state, the recorded admission timestamp
(`final_time`, appended to `_request_times`; `none` when
`RATE_LIMIT_RPM <= 0`, where the function returns at once recording
nothing), and the sleep duration (`wait`).  Faithful to
lines 143-195. -/
def rateStep (cfg : RateCfg) (st : RateState) (now : ℚ) :
    RateState × Option ℚ × ℚ :=
  if cfg.rpm ≤ 0 then (st, none, 0)
  else
    let minInterval : ℚ := 60 / (cfg.rpm : ℚ)
    let ts := pruneOld now st.times
    let waitCap : ℚ := if (ts.length : Int) ≥ cfg.rpm then (ts.headD 0 + 60) - now else 0
    let na := max st.nextAllowed now
    let smoothingTarget := if ts.length < cfg.threshold then now else na
    let finalTime := max (now + waitCap) smoothingTarget
    let na2 := if ts.length < cfg.threshold then finalTime else finalTime + minInterval
    (⟨ts ++ [finalTime], na2⟩, some finalTime, finalTime - now)

/-- Run a sequence of `_rate_limit_wait` calls at the given clock
readings.  Returns the final state, the list of recorded admission
timestamps, and the list of sleep durations (in call order). -/
def rateRun (cfg : RateCfg) : RateState → List ℚ → RateState × List ℚ × List ℚ
  | st, [] => (st, [], [])
  | st, n :: ns =>
    let (st', f, w) := rateStep cfg st n
    let (stFin, fs, ws) := rateRun cfg st' ns
    (stFin, f.toList ++ fs, w :: ws)

/-- The recorded admission timestamps of a run from the initial state. -/
def rateRecorded (cfg : RateCfg) (nows : List ℚ) : List ℚ :=
  (rateRun cfg rateInit nows).2.1

/-- The sleeps of a run from the initial state. -/
def rateWaits (cfg : RateCfg) (nows : List ℚ) : List ℚ :=
  (rateRun cfg rateInit nows).2.2

/-- The clock-reading sequence exhibiting the window-cap failure:
12 calls at monotonic time 0, then 11 calls at time 126, with
`RATE_LIMIT_RPM = 10` and its default threshold
`max(1, 10 // 4) = 2`. -/
def capFailCfg : RateCfg := ⟨10, 2⟩

def capFailNows : List ℚ := List.replicate 12 0 ++ List.replicate 11 126

/-! ### Retrying fetcher: `fetch_api_data` (src/inat.label.py lines 474-584)

One logical fetch: a loop of up to `retries` attempts (default 6).
The transport is modelled as a map from the attempt number (1-based,
the code's `attempt` counter) to the observed outcome of that attempt;
the jitter drawn by `random.uniform(0.8, 1.2)` on an attempt is
likewise supplied as a stream.  The `Retry-After` header is modelled
post-parse (`_parse_retry_after` returns a float or `None`).  Printing
(the 429 notice, patience notice, server-error notice) has no effect on
state or result and is not modelled.  The bound of the concurrency
semaphore `_request_semaphore` is threaded through unchanged, exactly
as the code's `with _request_semaphore:` block acquires and releases
but never resizes it. -/

/-- What the body of a 200 response parses to: `response.text` empty
after strip, `response.json()` raising `ValueError`, or a parsed JSON
value (abstracted; its content only matters to callers). -/
inductive Body200 where
  | empty
  | invalid
  | valid (payload : Nat)
  deriving Repr, DecidableEq

/-- Outcome of one attempt as seen by the classifier in the loop body:
an HTTP response with status code, parsed `Retry-After` value and
body, or one of the exception classes the code catches. -/
inductive AttemptOutcome where
  | http (code : Nat) (retryAfter : Option ℚ) (body : Body200)
  | timeoutOrSSL
  | requestExc
  | otherExc
  deriving Repr, DecidableEq

/-- Terminal error messages of `fetch_api_data`, one constructor per
distinct string returned by the code. -/
inductive FetchErr where
  | emptyResponse
  | parseError
  | notFound
  | httpError (code : Nat)
  | unexpected
  | exceededRetries
  deriving Repr, DecidableEq

structure FetchEnv where
  /-- attempt number (1-based) ↦ outcome of the network call. -/
  outcome : Nat → AttemptOutcome
  /-- attempt number ↦ the value drawn by `random.uniform(0.8, 1.2)`. -/
  jitter : Nat → ℚ

structure FetchResult where
  data : Option Nat
  error : Option FetchErr
  /-- `total_wait`: the sum of all sleeps performed in this call. -/
  totalWait : ℚ
  /-- value of the `attempt` counter when the call returned. -/
  attempts : Nat
  /-- elapsed sleep time at each 429 receipt, oldest first (the
  observable trace of overload signals; the code keeps no such state). -/
  overloads : List ℚ
  /-- the bound of `_request_semaphore` (the concurrency target). -/
  semBound : Nat
  deriving Repr, DecidableEq

/-- The 5xx backoff curve `min(30, 1.5 ** attempt)` (line 546). -/
def backoff5xx (attempt : Nat) : ℚ := min 30 ((3/2 : ℚ) ^ attempt)

/-- The timeout / connection-error backoff curve
`min(20, 1.5 ** attempt)` (lines 560 and 571). -/
def backoffNet (attempt : Nat) : ℚ := min 20 ((3/2 : ℚ) ^ attempt)

/-- The 429 backoff when no `Retry-After` is available:
`min(60, 2 ** attempt)` (line 522). -/
def backoff429 (attempt : Nat) : ℚ := min 60 ((2 : ℚ) ^ attempt)

/-- Jitter then clamp (lines 524-527, 547-549, 561-563, 572-574):
`wait *= jitter; wait = max(0.5, min(wait, maxTotalWait - totalWait))`. -/
def clampWait (w jitter maxTotalWait totalWait : ℚ) : ℚ :=
  max (1/2) (min (w * jitter) (maxTotalWait - totalWait))

/-- The retry loop of `fetch_api_data`.  `fuel` is `retries - attempt`;
the loop guard `while attempt < retries` exhausts when fuel hits 0 and
the call returns the exceeded-retries error (line 584). -/
def fetchLoop (env : FetchEnv) (maxTotalWait : ℚ) (semBound : Nat) :
    Nat → Nat → ℚ → List ℚ → FetchResult
  | 0, attempt, totalWait, ovl =>
    ⟨none, some .exceededRetries, totalWait, attempt, ovl, semBound⟩
  | fuel + 1, attempt, totalWait, ovl =>
    match env.outcome (attempt + 1) with
    | .http code ra body =>
      if code = 200 then
        match body with
        | .empty => ⟨none, some .emptyResponse, totalWait, attempt + 1, ovl, semBound⟩
        | .invalid => ⟨none, some .parseError, totalWait, attempt + 1, ovl, semBound⟩
        | .valid p => ⟨some p, none, totalWait, attempt + 1, ovl, semBound⟩
      else if code = 404 then
        ⟨none, some .notFound, totalWait, attempt + 1, ovl, semBound⟩
      else if code = 429 then
        let w0 := match ra with
          | some q => q
          | none => backoff429 (attempt + 1)
        let w := clampWait w0 (env.jitter (attempt + 1)) maxTotalWait totalWait
        fetchLoop env maxTotalWait semBound fuel (attempt + 1) (totalWait + w)
          (ovl ++ [totalWait])
      else if 500 ≤ code ∧ code < 600 then
        let w := clampWait (backoff5xx (attempt + 1)) (env.jitter (attempt + 1))
          maxTotalWait totalWait
        fetchLoop env maxTotalWait semBound fuel (attempt + 1) (totalWait + w) ovl
      else
        ⟨none, some (.httpError code), totalWait, attempt + 1, ovl, semBound⟩
    | .timeoutOrSSL =>
      let w := clampWait (backoffNet (attempt + 1)) (env.jitter (attempt + 1))
        maxTotalWait totalWait
      fetchLoop env maxTotalWait semBound fuel (attempt + 1) (totalWait + w) ovl
    | .requestExc =>
      let w := clampWait (backoffNet (attempt + 1)) (env.jitter (attempt + 1))
        maxTotalWait totalWait
      fetchLoop env maxTotalWait semBound fuel (attempt + 1) (totalWait + w) ovl
    | .otherExc => ⟨none, some .unexpected, totalWait, attempt + 1, ovl, semBound⟩

/-- `fetch_api_data(url, retries)` with total-wait budget
`maxTotalWait` (`_MAX_WAIT_SECONDS`, default 30) under concurrency
bound `semBound` (`INAT_MAX_WORKERS`, default 5). -/
def fetchApiData (env : FetchEnv) (retries : Nat) (maxTotalWait : ℚ)
    (semBound : Nat) : FetchResult :=
  fetchLoop env maxTotalWait semBound retries 0 0 []

/-- A transport that always answers 429 with `Retry-After: 30`, and a
jitter stream pinned at 1 (a legal draw of `random.uniform(0.8, 1.2)`). -/
def env429RA30 : FetchEnv :=
  ⟨fun _ => .http 429 (some 30) .empty, fun _ => 1⟩

/-- A transport that always answers 429 with `Retry-After: 1`,
jitter 1. -/
def env429RA1 : FetchEnv :=
  ⟨fun _ => .http 429 (some 1) .empty, fun _ => 1⟩

/-! ### Taxon details cache: `get_taxon_details` (lines 657-685)

JSON values are modelled as `PyVal`; the module-level `_taxon_cache`
dict as an association list (later inserts shadow earlier ones, like
dict assignment).  The `int(taxon_id)` conversion is modelled by its
outcome (`some tid`, or `none` when it raises).  The upstream
`fetch_api_data` call is modelled by its result pair `(data, error)`;
the state counts how many upstream calls were issued. -/

inductive PyVal where
  | none
  | int (n : Int)
  | str (s : String)
  | list (elems : List PyVal)
  | dict (entries : List (String × PyVal))
  deriving Repr

/-- `is None` on a modelled value. -/
def PyVal.isNoneV : PyVal → Bool
  | .none => true
  | _ => false

/-- Python truthiness of the values we model. -/
def pyTruthy : PyVal → Bool
  | .none => false
  | .int n => n ≠ 0
  | .str s => s ≠ ""
  | .list l => !l.isEmpty
  | .dict d => !d.isEmpty

/-- `d.get(key)`: `None` when the receiver is not a dict, the key is
absent, or the stored value is `None`. -/
def pyGet (v : PyVal) (key : String) : PyVal :=
  match v with
  | .dict entries =>
    match entries.find? (fun e => e.1 = key) with
    | some e => e.2
    | Option.none => .none
  | _ => .none

/-- Line 670: `if cached and cached.get('ancestors') is not None` —
the cache entry counts as complete (full expected shape, ancestors
included). -/
def completeEntry : Option PyVal → Bool
  | Option.none => false
  | some v => pyTruthy v && !(pyGet v "ancestors").isNoneV

/-- Cache lookup — `_taxon_cache.get(tid)`. -/
def cacheLookup (cache : List (Int × PyVal)) (tid : Int) : Option PyVal :=
  (cache.find? (fun e => e.1 = tid)).map (·.2)

structure TaxonState where
  cache : List (Int × PyVal)
  upstreamCalls : Nat
  deriving Repr

/-- Lines 680-684: `if data and data.get('results'):` take
`data['results'][0]`.  Only a non-empty results list yields an item;
anything else falls through to `return cached`. -/
def firstResult : Option PyVal → Option PyVal
  | Option.none => Option.none
  | some v =>
    if pyTruthy v then
      match pyGet v "results" with
      | .list (item :: _) => some item
      | _ => Option.none
    else Option.none

/-- `get_taxon_details(taxon_id, retries)`.  `tidResult` is the outcome
of `int(taxon_id)`; `fetchRes` the `(data, error)` pair the upstream
`fetch_api_data` call would return on a miss.  Returns the function's
result and the new module state. -/
def getTaxonDetails (tidResult : Option Int)
    (fetchRes : Option PyVal × Option FetchErr) (st : TaxonState) :
    Option PyVal × TaxonState :=
  match tidResult with
  | Option.none => (Option.none, st)
  | some tid =>
    let cached := cacheLookup st.cache tid
    if completeEntry cached then (cached, st)
    else
      let st1 : TaxonState := ⟨st.cache, st.upstreamCalls + 1⟩
      match fetchRes with
      | (_, some _) => (cached, st1)
      | (data, Option.none) =>
        match firstResult data with
        | some item => (some item, ⟨(tid, item) :: st1.cache, st1.upstreamCalls⟩)
        | Option.none => (cached, st1)

/-! ### Concurrent resolves of one taxon key

`get_taxon_details` takes `_taxon_cache_lock` for the cache read and
again for the cache write, but issues the upstream fetch outside any
lock and consults no in-flight registry (the batcher machinery of
lines 586-654 is never started: `_start_taxon_batcher` has no caller
and `_taxon_batch_queue` is never fed).  Concurrent callers for the
same key therefore interleave as this small-step system: each caller
atomically reads the cache, then performs its own upstream call, then
atomically writes the cache and finishes.  `upstream` counts issued
calls; callers in state `fetching` have a call outstanding. -/

inductive CallerPC where
  | ready
  | fetching (cached : Option PyVal)
  | done (res : Option PyVal)
  deriving Repr

structure CoState where
  cache : List (Int × PyVal)
  upstream : Nat
  callers : List CallerPC
  deriving Repr

/-- Advance caller `i` by one step, resolving key `tid` against a
transport whose fetch always succeeds with `results = [item]`. -/
def coStep (tid : Int) (item : PyVal) (σ : CoState) (i : Nat) : CoState :=
  match σ.callers.get? i with
  | Option.none => σ
  | some pc =>
    match pc with
    | .ready =>
      let c := cacheLookup σ.cache tid
      if completeEntry c then
        ⟨σ.cache, σ.upstream, σ.callers.set i (.done c)⟩
      else
        ⟨σ.cache, σ.upstream + 1, σ.callers.set i (.fetching c)⟩
    | .fetching _ =>
      ⟨(tid, item) :: σ.cache, σ.upstream, σ.callers.set i (.done (some item))⟩
    | .done _ => σ

/-- Run a schedule (list of caller indices, each step advancing that
caller once). -/
def coRun (tid : Int) (item : PyVal) : CoState → List Nat → CoState
  | σ, [] => σ
  | σ, i :: is => coRun tid item (coStep tid item σ i) is

/-- Number of callers with an outstanding upstream call. -/
def outstanding (σ : CoState) : Nat :=
  σ.callers.countP (fun pc => match pc with | .fetching _ => true | _ => false)

/-- `n` cold-cache callers about to resolve the same key. -/
def coInit (n : Nat) : CoState := ⟨[], 0, List.replicate n .ready⟩

/-- A complete taxon record (truthy dict with non-None ancestors). -/
def taxonItem : PyVal :=
  .dict [("id", .int 42), ("name", .str "Amanita"),
         ("ancestors", .list [.int 47170])]

/-- A partial taxon record: truthy but without ancestors. -/
def taxonPartial : PyVal := .dict [("id", .int 7)]

/-- A transport that always answers 404. -/
def env404 : FetchEnv := ⟨fun _ => .http 404 none .empty, fun _ => 1⟩

/-- Whether a caller has passed its initial cache check. -/
def notReady : CallerPC → Bool
  | .ready => false
  | _ => true

/-- Invariant of the concurrent-resolve system: fixed caller count, at
most one issued upstream call per caller that has passed the cache
check, a cache holding only the one record, and finished callers
holding that record. -/
def coInv (tid : Int) (item : PyVal) (n : Nat) (σ : CoState) : Prop :=
  σ.callers.length = n ∧
  σ.upstream ≤ σ.callers.countP notReady ∧
  (∀ e ∈ σ.cache, e = (tid, item)) ∧
  (∀ pc ∈ σ.callers, ∀ r, pc = CallerPC.done r → r = some item)

/-! ## Helper lemmas -/

theorem pruneOld_eq_self (now : ℚ) (l : List ℚ)
    (h : ∀ t ∈ l, now - t ≤ 60) : pruneOld now l = l := by
  cases l with
  | nil => rfl
  | cons t ts =>
    have ht : now - t ≤ 60 := h t (List.mem_cons_self t ts)
    simp [pruneOld, not_lt.mpr ht]

/-- In burst mode with free window capacity, an admission is recorded
at `now` with zero wait and the schedule cursor is reset to `now`. -/
theorem rateStep_burst (cfg : RateCfg) (st : RateState) (now : ℚ)
    (h0 : 0 < cfg.rpm)
    (hpr : pruneOld now st.times = st.times)
    (hthr : st.times.length < cfg.threshold)
    (hrpm : (st.times.length : Int) < cfg.rpm) :
    rateStep cfg st now = (⟨st.times ++ [now], now⟩, some now, 0) := by
  unfold rateStep
  rw [if_neg (by omega)]
  simp only [hpr, if_neg (not_le.mpr hrpm), if_pos hthr]
  simp

/-- `fetchLoop` never changes the semaphore bound. -/
theorem fetchLoop_semBound (env : FetchEnv) (B : ℚ) (w : Nat) :
    ∀ fuel attempt total ovl,
      (fetchLoop env B w fuel attempt total ovl).semBound = w := by
  intro fuel
  induction fuel with
  | zero => intro attempt total ovl; rfl
  | succ n ih =>
    intro attempt total ovl
    unfold fetchLoop
    split
    case h_1 code ra body =>
      split
      · split <;> rfl
      · split
        · rfl
        · split
          · apply ih
          · split
            · apply ih
            · rfl
    case h_2 => apply ih
    case h_3 => apply ih
    case h_4 => rfl

/-- `fetchLoop` increments the attempt counter at most `fuel` times. -/
theorem fetchLoop_attempts (env : FetchEnv) (B : ℚ) (w : Nat) :
    ∀ fuel attempt total ovl,
      (fetchLoop env B w fuel attempt total ovl).attempts ≤ attempt + fuel := by
  intro fuel
  induction fuel with
  | zero => intro attempt total ovl; exact Nat.le_add_right _ _
  | succ n ih =>
    intro attempt total ovl
    have key : ∀ t o, (fetchLoop env B w n (attempt + 1) t o).attempts
        ≤ attempt + (n + 1) := by
      intro t o
      have := ih (attempt + 1) t o
      omega
    unfold fetchLoop
    split
    case h_1 code ra body =>
      split
      · split <;> (show attempt + 1 ≤ attempt + (n + 1); omega)
      · split
        · show attempt + 1 ≤ attempt + (n + 1); omega
        · split
          · apply key
          · split
            · apply key
            · show attempt + 1 ≤ attempt + (n + 1); omega
    case h_2 => apply key
    case h_3 => apply key
    case h_4 => show attempt + 1 ≤ attempt + (n + 1); omega

/-- Each computed wait is at most `max (1/2) (B - total)`. -/
theorem clampWait_le (B total w0 j : ℚ) :
    clampWait w0 j B total ≤ max (1/2) (B - total) :=
  max_le_max le_rfl (min_le_right _ _)

/-- One jitter-and-clamp step moves `max B total` up by at most 1/2. -/
theorem clampWait_max_step (B total w0 j : ℚ) :
    max B (total + clampWait w0 j B total) ≤ max B total + 1/2 := by
  have h2 := clampWait_le B total w0 j
  apply max_le
  · have := le_max_left B total
    linarith
  · rcases max_cases (1/2 : ℚ) (B - total) with ⟨heq, _⟩ | ⟨heq, _⟩ <;>
      rw [heq] at h2
    · have := le_max_right B total
      linarith
    · have := le_max_left B total
      linarith

/-- The accumulated sleep of the retry loop grows by at most 1/2 per
attempt beyond the budget. -/
theorem fetchLoop_totalWait (env : FetchEnv) (B : ℚ) (w : Nat) :
    ∀ fuel attempt total ovl,
      (fetchLoop env B w fuel attempt total ovl).totalWait
        ≤ max B total + fuel * (1/2) := by
  intro fuel
  induction fuel with
  | zero =>
    intro attempt total ovl
    have h1 := le_max_right B total
    show total ≤ max B total + ((0 : ℕ) : ℚ) * (1/2)
    push_cast
    linarith
  | succ n ih =>
    intro attempt total ovl
    have base : total ≤ max B total + (n + 1 : Nat) * (1/2 : ℚ) := by
      have h1 := le_max_right B total
      have h2 : (0 : ℚ) ≤ (n + 1 : Nat) * (1/2 : ℚ) := by positivity
      linarith
    have key : ∀ (w0 : ℚ) (o : List ℚ), (fetchLoop env B w n (attempt + 1)
        (total + clampWait w0 (env.jitter (attempt + 1)) B total) o).totalWait
        ≤ max B total + (n + 1 : Nat) * (1/2 : ℚ) := by
      intro w0 o
      calc (fetchLoop env B w n (attempt + 1)
              (total + clampWait w0 (env.jitter (attempt + 1)) B total) o).totalWait
          ≤ max B (total + clampWait w0 (env.jitter (attempt + 1)) B total)
              + n * (1/2) := ih _ _ _
        _ ≤ (max B total + 1/2) + n * (1/2) := by
            have := clampWait_max_step B total w0 (env.jitter (attempt + 1))
            linarith
        _ = max B total + (n + 1 : Nat) * (1/2 : ℚ) := by push_cast; ring
    unfold fetchLoop
    split
    case h_1 code ra body =>
      split
      · split <;> exact base
      · split
        · exact base
        · split
          · exact key _ _
          · split
            · exact key _ _
            · exact base
    case h_2 => exact key _ _
    case h_3 => exact key _ _
    case h_4 => exact base

/-- Lookup in a cache whose entries are all `(tid, item)` yields
nothing or `item`. -/
theorem cacheLookup_of_const (cache : List (Int × PyVal)) (tid : Int)
    (item : PyVal) (h : ∀ e ∈ cache, e = (tid, item)) :
    cacheLookup cache tid = Option.none ∨ cacheLookup cache tid = some item := by
  cases cache with
  | nil => left; rfl
  | cons e es =>
    have he : e = (tid, item) := h e (List.mem_cons_self e es)
    right
    simp [cacheLookup, List.find?, he]

/-- As long as the admissions fit under both the burst threshold and
the window capacity, and all requests land within one 60-second span,
every call takes the burst path with zero wait. -/
theorem rateRun_burst_aux (cfg : RateCfg) :
    ∀ (rest done : List ℚ) (na : ℚ),
      done.length + rest.length ≤ cfg.threshold →
      (done.length : Int) + rest.length ≤ cfg.rpm →
      (∀ t ∈ done, ∀ m ∈ rest, m - t ≤ 60) →
      (∀ s ∈ rest, ∀ m ∈ rest, m - s ≤ 60) →
      ∀ w ∈ (rateRun cfg ⟨done, na⟩ rest).2.2, w = 0 := by
  intro rest
  induction rest with
  | nil => intro done na _ _ _ _ w hw; simp [rateRun] at hw
  | cons n ns ih =>
    intro done na hthr hrpm hDR hRR w hw
    have hthrC : done.length + (ns.length + 1) ≤ cfg.threshold := by
      simpa using hthr
    have hrpmC : (done.length : Int) + ((ns.length : Int) + 1) ≤ cfg.rpm := by
      have h := hrpm
      simp only [List.length_cons] at h
      push_cast at h ⊢
      linarith
    rcases le_or_lt cfg.rpm 0 with h0 | h0
    · have hstep : rateStep cfg ⟨done, na⟩ n = (⟨done, na⟩, none, 0) := by
        unfold rateStep; rw [if_pos h0]
      rw [show rateRun cfg ⟨done, na⟩ (n :: ns)
          = (let (st', f, w) := rateStep cfg ⟨done, na⟩ n
             let (stFin, fs, ws) := rateRun cfg st' ns
             (stFin, f.toList ++ fs, w :: ws)) from rfl, hstep] at hw
      simp at hw
      rcases hw with hw | hw
      · exact hw
      · refine ih done na (by omega) (by omega)
          (fun t ht m hm => hDR t ht m (List.mem_cons_of_mem n hm))
          (fun s hs m hm =>
            hRR s (List.mem_cons_of_mem n hs) m (List.mem_cons_of_mem n hm)) w hw
    · have hpr : pruneOld n done = done :=
        pruneOld_eq_self n done (fun t ht => by
          have := hDR t ht n (List.mem_cons_self n ns)
          linarith)
      have hthr' : done.length < cfg.threshold := by omega
      have hrpm' : (done.length : Int) < cfg.rpm := by push_cast at hrpmC ⊢; linarith
      have hstep := rateStep_burst cfg ⟨done, na⟩ n h0 hpr hthr' hrpm'
      rw [show rateRun cfg ⟨done, na⟩ (n :: ns)
          = (let (st', f, w) := rateStep cfg ⟨done, na⟩ n
             let (stFin, fs, ws) := rateRun cfg st' ns
             (stFin, f.toList ++ fs, w :: ws)) from rfl, hstep] at hw
      simp at hw
      rcases hw with hw | hw
      · exact hw
      · refine ih (done ++ [n]) n (by simp; omega)
          (by simp; omega) ?_
          (fun s hs m hm =>
            hRR s (List.mem_cons_of_mem n hs) m (List.mem_cons_of_mem n hm)) w hw
        intro t ht m hm
        rcases List.mem_append.mp ht with ht' | ht'
        · exact hDR t ht' m (List.mem_cons_of_mem n hm)
        · rw [List.mem_singleton.mp ht']
          exact hRR n (List.mem_cons_self n ns) m (List.mem_cons_of_mem n hm)

/-- Replacing the element at a valid index shifts `countP` by the
difference of the predicate on the old and new values. -/
theorem countP_set_get? {α : Type} (p : α → Bool) :
    ∀ (l : List α) (i : Nat) (a b : α), l.get? i = some a →
      (l.set i b).countP p + (if p a then 1 else 0)
        = l.countP p + (if p b then 1 else 0) := by
  intro l
  induction l with
  | nil => intro i a b h; simp at h
  | cons x xs ih =>
    intro i a b h
    cases i with
    | zero =>
      have hax : a = x := by simpa using h.symm
      subst hax
      simp [List.countP_cons]
      omega
    | succ j =>
      have h' : xs.get? j = some a := by simpa using h
      have := ih j a b h'
      simp [List.countP_cons]
      omega

/-- One caller step preserves the concurrent-resolve invariant. -/
theorem coStep_inv (tid : Int) (item : PyVal) (n : Nat)
    (σ : CoState) (i : Nat)
    (hI : coInv tid item n σ) : coInv tid item n (coStep tid item σ i) := by
  obtain ⟨hlen, hup, hcache, hdone⟩ := hI
  have hmemset : ∀ (b pc' : CallerPC), pc' ∈ σ.callers.set i b →
      pc' ∈ σ.callers ∨ pc' = b := fun b pc' h =>
    List.mem_or_eq_of_mem_set h
  cases hg : σ.callers.get? i with
  | none =>
    have hstep : coStep tid item σ i = σ := by unfold coStep; rw [hg]
    rw [hstep]
    exact ⟨hlen, hup, hcache, hdone⟩
  | some pc =>
    cases pc with
    | ready =>
      have hcount := countP_set_get? notReady σ.callers i CallerPC.ready
      by_cases hc : completeEntry (cacheLookup σ.cache tid) = true
      · have hstep : coStep tid item σ i =
            ⟨σ.cache, σ.upstream,
             σ.callers.set i (.done (cacheLookup σ.cache tid))⟩ := by
          unfold coStep; rw [hg]; exact if_pos hc
        rw [hstep]
        refine ⟨by simpa using hlen, ?_, hcache, ?_⟩
        · have h1 := hcount (.done (cacheLookup σ.cache tid)) hg
          simp [notReady] at h1
          show σ.upstream ≤
            (σ.callers.set i (.done (cacheLookup σ.cache tid))).countP notReady
          omega
        · intro pc' hpc' r hr
          rcases hmemset _ pc' hpc' with hm | hm
          · exact hdone pc' hm r hr
          · rw [hm] at hr
            have hcv : cacheLookup σ.cache tid = r := by injection hr
            rcases cacheLookup_of_const σ.cache tid item hcache with hnone | hsome
            · rw [hnone] at hc; simp [completeEntry] at hc
            · rw [← hcv, hsome]
      · have hstep : coStep tid item σ i =
            ⟨σ.cache, σ.upstream + 1,
             σ.callers.set i (.fetching (cacheLookup σ.cache tid))⟩ := by
          unfold coStep; rw [hg]; exact if_neg hc
        rw [hstep]
        refine ⟨by simpa using hlen, ?_, hcache, ?_⟩
        · have h1 := hcount (.fetching (cacheLookup σ.cache tid)) hg
          simp [notReady] at h1
          show σ.upstream + 1 ≤
            (σ.callers.set i (.fetching (cacheLookup σ.cache tid))).countP notReady
          omega
        · intro pc' hpc' r hr
          rcases hmemset _ pc' hpc' with hm | hm
          · exact hdone pc' hm r hr
          · rw [hm] at hr; simp at hr
    | fetching c =>
      have hstep : coStep tid item σ i =
          ⟨(tid, item) :: σ.cache, σ.upstream,
           σ.callers.set i (.done (some item))⟩ := by
        unfold coStep; rw [hg]
      rw [hstep]
      refine ⟨by simpa using hlen, ?_, ?_, ?_⟩
      · have h1 := countP_set_get? notReady σ.callers i (.fetching c)
          (.done (some item)) hg
        simp [notReady] at h1
        show σ.upstream ≤
          (σ.callers.set i (.done (some item))).countP notReady
        omega
      · intro e he
        rcases List.mem_cons.mp he with he' | he'
        · exact he'
        · exact hcache e he'
      · intro pc' hpc' r hr
        rcases hmemset _ pc' hpc' with hm | hm
        · exact hdone pc' hm r hr
        · rw [hm] at hr
          injection hr with h'
          exact h'.symm
    | done r =>
      have hstep : coStep tid item σ i = σ := by unfold coStep; rw [hg]
      rw [hstep]
      exact ⟨hlen, hup, hcache, hdone⟩

/-- Running any schedule preserves the concurrent-resolve invariant. -/
theorem coRun_inv (tid : Int) (item : PyVal) (n : Nat) :
    ∀ (sched : List Nat) (σ : CoState), coInv tid item n σ →
      coInv tid item n (coRun tid item σ sched) := by
  intro sched
  induction sched with
  | nil => intro σ h; exact h
  | cons i is ih =>
    intro σ h
    exact ih _ (coStep_inv tid item n σ i h)

/-! ## Claim theorems -/

/-- C1: the claim states that `_rate_limit_wait` admits at most
`RATE_LIMIT_RPM` admissions within any rolling 60-second window, as
measured by the recorded admission timestamps (also the function's own
docstring: the window cap is always enforced).  The code violates
this: with `RATE_LIMIT_RPM = 10` and its default smoothing threshold
`max(1, 10 // 4) = 2`, the call sequence of 12 calls at monotonic
time 0 followed by 11 calls at time 126 records 11 admission
timestamps inside the 54-second span from 126 to 180 — one more than
the budget.  (The hard cap waits only for the oldest remaining deque
entry, here the stale timestamp 66, which lies outside the violated
window, while burst mode has erased the smoothing debt.) -/
theorem rateLimiter_window_cap_violated_eval :
    capFailCfg.rpm = 10 ∧ capFailCfg.threshold = defaultThreshold 10 ∧
    (rateRecorded capFailCfg capFailNows).countP
        (fun t => decide (126 ≤ t) && decide (t ≤ 180)) = 11 ∧
    (180 : ℚ) - 126 < 60 ∧ 10 < 11 := by
  refine ⟨rfl, by decide, ?_, by norm_num, by norm_num⟩
  norm_num [rateRecorded, rateRun, rateStep, rateInit, pruneOld, max_def,
    capFailCfg, capFailNows, List.replicate, List.countP_cons]

/-- C5 counterexample: with `RATE_LIMIT_RPM = 2` and burst threshold 5
(both set by the configuration surface), three admission requests at
time 0 — a sequence of N = 3 ≤ 5 admissions inside one 60-second
window — make the third call sleep 60 seconds: burst mode does not
bypass the hard window cap, so the claim's "zero sleep" fails whenever
the burst threshold exceeds the requests-per-minute budget. -/
theorem rateLimiter_burst_sleeps_cex :
    rateWaits ⟨2, 5⟩ [0, 0, 0] = [0, 0, 60] ∧
    ([0, 0, 0] : List ℚ).length ≤ 5 ∧
    (∀ s ∈ ([0, 0, 0] : List ℚ), ∀ t ∈ ([0, 0, 0] : List ℚ), t - s ≤ 60) ∧
    ¬ ((60 : ℚ) = 0) := by
  refine ⟨?_, by norm_num, ?_, by norm_num⟩
  · norm_num [rateWaits, rateRun, rateStep, rateInit, pruneOld, max_def]
  · norm_num [List.forall_mem_cons]

/-- C5 amended: for every sequence of N admission requests falling
within a 60-second window with N at most the burst threshold AND at
most the requests-per-minute budget (as is always the case under the
default threshold `max(1, RPM // 4)`), each admission is granted
immediately with zero sleep. -/
theorem rateLimiter_burst_no_sleep (cfg : RateCfg) (nows : List ℚ)
    (hthr : nows.length ≤ cfg.threshold)
    (hrpm : (nows.length : Int) ≤ cfg.rpm)
    (hspan : ∀ s ∈ nows, ∀ t ∈ nows, t - s ≤ 60) :
    ∀ w ∈ rateWaits cfg nows, w = 0 :=
  rateRun_burst_aux cfg nows [] 0 (by simpa using hthr) (by simpa using hrpm)
    (by simp) hspan

/-- C5 witness: two requests at times 0 and 1 under `RPM = 10`,
threshold 2, both sleep zero. -/
theorem rateLimiter_burst_no_sleep_witness :
    (([0, 1] : List ℚ).length ≤ (2 : Nat) ∧
     ((([0, 1] : List ℚ).length : Int) ≤ 10) ∧
     (∀ s ∈ ([0, 1] : List ℚ), ∀ t ∈ ([0, 1] : List ℚ), t - s ≤ 60)) ∧
    ∀ w ∈ rateWaits ⟨10, 2⟩ [0, 1], w = 0 :=
  ⟨⟨by norm_num, by norm_num, by norm_num [List.forall_mem_cons]⟩,
   rateLimiter_burst_no_sleep ⟨10, 2⟩ [0, 1] (by norm_num) (by norm_num)
     (by norm_num [List.forall_mem_cons])⟩

/-- C2 counterexample: a run of `fetch_api_data` against a transport
that always answers HTTP 429 (`Retry-After: 1`, jitter 1) under
concurrency bound 5 receives overload signals at elapsed times
0, 1, 2 — three of them within 10 seconds while the
bound is above 1 — yet the concurrency bound after the run is still 5,
not the 4 the claim's decrement would require: the code records no
overload state and never adjusts `_request_semaphore`. -/
theorem fetch429_no_target_decrement_cex :
    (fetchApiData env429RA1 3 30 5).overloads = [0, 1, 2] ∧
    (2 : ℚ) - 0 ≤ 10 ∧ (1 : Nat) < 5 ∧
    (fetchApiData env429RA1 3 30 5).semBound = 5 ∧ ¬ ((5 : Nat) = 4) := by
  have h : fetchApiData env429RA1 3 30 5
      = ⟨none, some FetchErr.exceededRetries, 3, 3, [0, 1, 2], 5⟩ := by
    norm_num [fetchApiData, fetchLoop, clampWait, env429RA1, min_def, max_def]
  rw [h]
  norm_num

/-- C2 amended: an HTTP 429 response only triggers a logged warning,
a backoff sleep, and a retry; the code keeps no overload-signal state
and never changes the concurrency target within a run — for every
transport, jitter stream, retry ceiling and budget, the semaphore
bound after a fetch equals the bound before it (in particular it never
increases, and it is never decremented). -/
theorem fetch429_concurrencyTarget_unchanged (env : FetchEnv)
    (retries : Nat) (B : ℚ) (w : Nat) :
    (fetchApiData env retries B w).semBound = w :=
  fetchLoop_semBound env B w retries 0 0 []

/-- C4 counterexample: against a transport that always answers 429
with `Retry-After: 30` (jitter 1), a fetch with the default budget
(30 s) and an attempt ceiling of 2 sleeps a total of 30.5 seconds —
the first wait consumes the whole budget, yet retrying does not stop
on exhaustion: a second attempt runs and its wait is forced to the
0.5-second floor by `wait = max(0.5, min(wait, remaining))`, so the
total exceeds the budget (with the default ceiling 6 the excess grows
to 32.5 s, 0.5 s per further attempt). -/
theorem fetch_totalWait_exceeds_budget_cex :
    (fetchApiData env429RA30 2 30 5).totalWait = 61/2 ∧
    ¬ ((fetchApiData env429RA30 2 30 5).totalWait ≤ 30) ∧
    (fetchApiData env429RA30 2 30 5).error = some FetchErr.exceededRetries ∧
    (fetchApiData env429RA30 2 30 5).attempts = 2 := by
  have h : fetchApiData env429RA30 2 30 5
      = ⟨none, some FetchErr.exceededRetries, 61/2, 2, [0, 30], 5⟩ := by
    norm_num [fetchApiData, fetchLoop, clampWait, env429RA30, min_def, max_def]
  rw [h]
  norm_num

/-- C4 amended: within one logical fetch the sum of all retry waits
never exceeds the total-wait budget plus the 0.5-second floor for each
attempt after the first (32.5 s with the defaults 30 s and 6), and
retrying stops at the attempt ceiling (budget exhaustion only clamps
later waits to the floor, it does not stop the loop), surfacing the
terminal exceeded-retries error. -/
theorem fetch_totalWait_budget_slack (env : FetchEnv) (retries : Nat)
    (B : ℚ) (w : Nat) (hB : 1/2 ≤ B) (hr : 1 ≤ retries) :
    (fetchApiData env retries B w).totalWait
      ≤ B + (((retries : ℕ) : ℚ) - 1) * (1/2) ∧
    (fetchApiData env retries B w).attempts ≤ retries := by
  constructor
  · obtain ⟨r, rfl⟩ : ∃ r, retries = r + 1 := ⟨retries - 1, by omega⟩
    have hr0 : (0 : ℚ) ≤ (r : ℚ) := Nat.cast_nonneg r
    have base : (0 : ℚ) ≤ B + (((r + 1 : ℕ) : ℚ) - 1) * (1/2) := by
      push_cast
      linarith
    have key : ∀ (w0 : ℚ) (o : List ℚ),
        (fetchLoop env B w r 1 (0 + clampWait w0 (env.jitter 1) B 0) o).totalWait
          ≤ B + (((r + 1 : ℕ) : ℚ) - 1) * (1/2) := by
      intro w0 o
      have hcl : clampWait w0 (env.jitter 1) B 0 ≤ B := by
        have h1 := clampWait_le B 0 w0 (env.jitter 1)
        have h2 : max (1/2 : ℚ) (B - 0) = B := by
          rw [max_eq_right (by linarith)]
          ring
        rw [h2] at h1
        exact h1
      calc (fetchLoop env B w r 1 (0 + clampWait w0 (env.jitter 1) B 0) o).totalWait
          ≤ max B (0 + clampWait w0 (env.jitter 1) B 0) + r * (1/2) :=
            fetchLoop_totalWait env B w r 1 _ o
        _ = B + r * (1/2) := by rw [max_eq_left (by linarith)]
        _ = B + (((r + 1 : ℕ) : ℚ) - 1) * (1/2) := by push_cast; ring
    show (fetchLoop env B w (r + 1) 0 0 []).totalWait
      ≤ B + (((r + 1 : ℕ) : ℚ) - 1) * (1/2)
    unfold fetchLoop
    split
    case h_1 code ra body =>
      split
      · split <;> exact base
      · split
        · exact base
        · split
          · exact key _ _
          · split
            · exact key _ _
            · exact base
    case h_2 => exact key _ _
    case h_3 => exact key _ _
    case h_4 => exact base
  · simpa using fetchLoop_attempts env B w retries 0 0 []

/-- C4 witness: the bound applied to the always-429 transport with the
default budget and ceiling. -/
theorem fetch_totalWait_budget_slack_witness :
    ((1 : ℚ)/2 ≤ 30 ∧ (1 : Nat) ≤ 6) ∧
    ((fetchApiData env429RA30 6 30 5).totalWait
        ≤ 30 + (((6 : ℕ) : ℚ) - 1) * (1/2) ∧
     (fetchApiData env429RA30 6 30 5).attempts ≤ 6) :=
  ⟨⟨by norm_num, by norm_num⟩,
   fetch_totalWait_budget_slack env429RA30 6 30 5 (by norm_num) (by norm_num)⟩

/-- C6 counterexample: the timeout / connection-error backoff curve is
`min(20, 1.5 ** attempt)`, not the claimed `min(30, 1.5 ** attempt)`
of the 5xx case: at attempt 8 (reachable whenever a retries argument
above 7 is passed) the network wait is 20 while the claimed curve
gives 6561/256 = 25.62890625. -/
theorem netBackoff_cap_differs_cex :
    backoffNet 8 = 20 ∧ backoff5xx 8 = 6561/256 ∧
    ¬ (backoffNet 8 = min 30 ((3/2 : ℚ) ^ 8)) := by
  refine ⟨?_, ?_, ?_⟩ <;> norm_num [backoffNet, backoff5xx]

/-- C6 amended: a fetch attempt failing with a timeout or connection
error computes its pre-jitter retry wait as `min(20, 1.5 ** attempt)`
— the same `1.5 ** attempt` curve as the 5xx case but with a 20-second
cap instead of 30 — which coincides with the 5xx wait for every
attempt up to 7 (hence for all attempts under the default ceiling 6). -/
theorem netBackoff_eq_5xx_below_cap (a : Nat) (ha : a ≤ 7) :
    backoffNet a = backoff5xx a := by
  interval_cases a <;> norm_num [backoffNet, backoff5xx]

/-- C6 witness: equality at attempt 7. -/
theorem netBackoff_eq_5xx_below_cap_witness :
    (7 : Nat) ≤ 7 ∧ backoffNet 7 = backoff5xx 7 :=
  ⟨by norm_num, netBackoff_eq_5xx_below_cap 7 (by norm_num)⟩

/-- C7: whenever the first attempt of a fetch receives HTTP 404 (and
at least one attempt is allowed), `fetch_api_data` returns the
terminal not-found error immediately: one attempt, zero retries, zero
total wait, regardless of `Retry-After`, body, budget, jitter, or what
the transport would do on later attempts. -/
theorem fetch404_immediate_noRetry (env : FetchEnv) (retries : Nat)
    (B : ℚ) (w : Nat) (ra : Option ℚ) (body : Body200)
    (hr : 1 ≤ retries) (h404 : env.outcome 1 = .http 404 ra body) :
    fetchApiData env retries B w
      = ⟨none, some FetchErr.notFound, 0, 1, [], w⟩ := by
  obtain ⟨r, rfl⟩ : ∃ r, retries = r + 1 := ⟨retries - 1, by omega⟩
  have h : env.outcome (0 + 1) = .http 404 ra body := h404
  unfold fetchApiData fetchLoop
  rw [h]
  norm_num

/-- C7 witness: the always-404 transport with the default ceiling. -/
theorem fetch404_immediate_noRetry_witness :
    ((1 : Nat) ≤ 6 ∧ env404.outcome 1 = .http 404 none .empty) ∧
    fetchApiData env404 6 30 5
      = ⟨none, some FetchErr.notFound, 0, 1, [], 5⟩ :=
  ⟨⟨by norm_num, rfl⟩,
   fetch404_immediate_noRetry env404 6 30 5 none .empty (by norm_num) rfl⟩

/-- C8: when the cache entry for a key is populated with a complete
value (truthy, with non-None ancestors — the full expected shape),
`get_taxon_details` returns that cached value and leaves the state
untouched: no upstream call is issued and the cache is unchanged,
whatever the transport would have answered. -/
theorem taxon_cached_complete_no_upstream (tid : Int) (st : TaxonState)
    (fr : Option PyVal × Option FetchErr)
    (h : completeEntry (cacheLookup st.cache tid) = true) :
    getTaxonDetails (some tid) fr st = (cacheLookup st.cache tid, st) := by
  unfold getTaxonDetails
  simp [h]

/-- C8 witness: a cache holding the complete record for key 42. -/
theorem taxon_cached_complete_no_upstream_witness :
    completeEntry (cacheLookup [(42, taxonItem)] 42) = true ∧
    getTaxonDetails (some 42) (Option.none, Option.none)
        ⟨[(42, taxonItem)], 0⟩
      = (cacheLookup [(42, taxonItem)] 42, ⟨[(42, taxonItem)], 0⟩) :=
  ⟨rfl, taxon_cached_complete_no_upstream 42 ⟨[(42, taxonItem)], 0⟩
    (Option.none, Option.none) rfl⟩

/-- C9: when the cache has no complete entry for the key and the
upstream fetch returns an error (any terminal error, including
exhausted retries), `get_taxon_details` returns the previously cached
value — possibly `None` or a partial record — without raising: the
error is logged, the upstream call is counted, and the cache is left
unmodified. -/
theorem taxon_fetch_error_returns_cached (tid : Int) (st : TaxonState)
    (data : Option PyVal) (e : FetchErr)
    (h : completeEntry (cacheLookup st.cache tid) = false) :
    getTaxonDetails (some tid) (data, some e) st
      = (cacheLookup st.cache tid, ⟨st.cache, st.upstreamCalls + 1⟩) := by
  unfold getTaxonDetails
  simp [h]

/-- C9 witness: a partial cache entry (no ancestors) for key 7 with an
exceeded-retries upstream error. -/
theorem taxon_fetch_error_returns_cached_witness :
    completeEntry (cacheLookup [(7, taxonPartial)] 7) = false ∧
    getTaxonDetails (some 7) (Option.none, some FetchErr.exceededRetries)
        ⟨[(7, taxonPartial)], 0⟩
      = (cacheLookup [(7, taxonPartial)] 7, ⟨[(7, taxonPartial)], 1⟩) :=
  ⟨rfl, taxon_fetch_error_returns_cached 7 ⟨[(7, taxonPartial)], 0⟩
    Option.none FetchErr.exceededRetries rfl⟩

/-- C10: when `int(taxon_id)` raises — the input is not convertible to
an integer — `get_taxon_details` returns `None` immediately, issuing
no upstream call and leaving the cache (the whole module state)
unmodified, for every transport result and starting state. -/
theorem taxon_nonint_returns_none (fr : Option PyVal × Option FetchErr)
    (st : TaxonState) :
    getTaxonDetails Option.none fr st = (Option.none, st) := rfl

/-- C3 counterexample: two concurrent cold-cache resolves of the same
key 42, interleaved so that both pass the cache check before either
fetch completes, issue two upstream calls — with both outstanding
simultaneously — instead of the claimed exactly-one:
`get_taxon_details` fetches directly on a miss and the batcher that
would coalesce is never started. -/
theorem resolve_concurrent_duplicate_calls_cex :
    (coRun 42 taxonItem (coInit 2) [0, 1]).upstream = 2 ∧
    outstanding (coRun 42 taxonItem (coInit 2) [0, 1]) = 2 ∧
    (coRun 42 taxonItem (coInit 2) [0, 1, 0, 1]).upstream = 2 ∧
    ¬ ((2 : Nat) = 1) := by
  refine ⟨by decide, by decide, by decide, by norm_num⟩

/-- C3 amended: concurrent resolves of the same taxon key are not
coalesced — each caller that observes an incomplete cache entry issues
its own upstream call (several may be outstanding at once), so a set
of N concurrent cold-cache callers makes up to N upstream calls, never
more; when the upstream consistently resolves the key to one record,
every caller that completes still receives that same record. -/
theorem resolve_no_coalescing (tid : Int) (item : PyVal) (n : Nat)
    (sched : List Nat) :
    (coRun tid item (coInit n) sched).upstream ≤ n ∧
    ∀ pc ∈ (coRun tid item (coInit n) sched).callers, ∀ r,
      pc = CallerPC.done r → r = some item := by
  have h0 : coInv tid item n (coInit n) := by
    refine ⟨by simp [coInit], by simp [coInit], by simp [coInit], ?_⟩
    intro pc hpc r hr
    rw [List.eq_of_mem_replicate hpc] at hr
    simp at hr
  have h := coRun_inv tid item n sched _ h0
  obtain ⟨hlen, hup, _, hdone⟩ := h
  refine ⟨le_trans hup (le_trans (List.countP_le_length _) (le_of_eq hlen)), hdone⟩

end INat
